import Mathlib

/-!
Shallow embedding of the crudp protocol core (github.com/cdvelop/crudp).

Sources embedded:
  * `packet.go` — `Packet`, `BatchRequest`, `PacketResult`, `BatchResponse`,
    `ProcessBatch`, `processSinglePacket`, `encodeResultToPacket`,
    `createErrorBatchResponse`.
  * STEP_02 handler-registration revision (`src/unnamed/part_003`) —
    `RegisterHandler`, `GetHandlerName`, `getHandlerName`, `callHandler`
    (with optional `Validator` and context-cancellation check); this is the
    revision whose `callHandler` signature matches the call in `packet.go`.
  * broker revision (`src/unnamed/part_018`) — `broker.Enqueue`,
    `broker.flush`, `broker.FlushNow`, `broker.Clear`.

Modelling conventions:
  * Go byte strings are `Bytes := List Nat`; Go `error` is `GoError := String`
    (only the message text is observable through `err.Error()`).
  * The injected codec is a record of encode/decode functions, one per Go type
    it is applied to (Go uses one reflective `Encode`/`Decode` for all of
    them); every theorem quantifies over the codec, so nothing is assumed
    about the wire format.
  * `context.Context` is modelled by `Ctx := Option GoError`: `some e` means
    the context is already done and `ctx.Err()` returns `e`; the only use in
    the source is the non-blocking `select` on `ctx.Done()`.
  * Side effects that the spec observes — invoking a bound CRUD method and
    calling `routeToSSE` — are made explicit as an `Event` trace returned
    alongside each result (Go observes them through test doubles and the SSE
    collaborator).
  * Handler values (`π` for payloads carried by `Response` objects and direct
    results, `δ` for decoded argument values) are arbitrary type parameters.
  * The Go `any` returned by a handler is the tagged union `HValue`, mirroring
    the type-switch order in `encodeResultToPacket` (nil, `[]Response`,
    `Response`, direct value).
  * `decodeWithKnownType` decodes each argument buffer of a packet through a
    reflection-driven per-handler decoder; its per-buffer decode is the
    abstract `decodeArg : Nat → Bytes → Except GoError δ` of the environment,
    and the loop with first-error propagation is embedded literally.
  * Timers (`tinytime`) are real-time behaviour and are outside the embedding;
    the broker state keeps only the queue and whether a flush callback is
    registered, and `flush` returns the list of byte strings handed to the
    callback.
-/

abbrev Bytes : Type := List Nat

abbrev GoError : Type := String

/-- Model of `context.Context` as observed by the dispatcher: `some e` iff the context
is already done, with `ctx.Err() = e`. -/
abbrev Ctx : Type := Option GoError

/-- tinystring message type `Msg.Error` (wire value 2). -/
def msgError : Nat := 2

/-- tinystring message type `Msg.Success` (wire value 4). -/
def msgSuccess : Nat := 4

/-- Go `Packet` struct from `packet.go`: one logical CRUD operation. -/
structure Packet where
  action : Nat
  handlerID : Nat
  reqID : String
  data : List Bytes
deriving Repr, DecidableEq

/-- Go `BatchRequest` struct from `packet.go`. -/
structure BatchRequest where
  packets : List Packet
deriving Repr, DecidableEq

/-- Go `PacketResult` struct from `packet.go`; it embeds the whole `Packet`
(including its `Data` field). -/
structure PacketResult where
  packet : Packet
  messageType : Nat
  message : String
deriving Repr, DecidableEq

/-- Go `BatchResponse` struct from `packet.go`. -/
structure BatchResponse where
  results : List PacketResult
deriving Repr, DecidableEq

/-- A broadcast-capable `Response` object: its `Response()` method returns
`(data, broadcast, err)`. -/
structure RespObj (π : Type) where
  data : π
  broadcast : List String
  err : Option GoError
deriving Repr, DecidableEq

/-- The Go `any` value a handler returns, as the tagged union that
`encodeResultToPacket`'s type switch distinguishes. -/
inductive HValue (π : Type) where
  | nil : HValue π
  | many (rs : List (RespObj π)) : HValue π
  | single (r : RespObj π) : HValue π
  | direct (v : π) : HValue π
deriving Repr, DecidableEq

/-- A registered handler after capability probing (`bind` in `handlers.go`):
each optional interface of the Go code is an `Option` field.  `typeName` is
the runtime type identifier used for reflective name derivation. -/
structure Handler (π δ : Type) where
  typeName : String
  nameOverride : Option String
  validate : Option (Nat → List δ → Option GoError)
  create : Option (Ctx → List δ → HValue π)
  read : Option (Ctx → List δ → HValue π)
  update : Option (Ctx → List δ → HValue π)
  delete : Option (Ctx → List δ → HValue π)

/-- Go `actionHandler` record built by `RegisterHandler` (STEP_02 revision):
resolved name, positional index, and the bound handler. -/
structure ActionHandler (π δ : Type) where
  name : String
  index : Nat
  h : Handler π δ

/-- The injected codec, split by the Go type each reflective
`Encode`/`Decode` call is applied to. -/
structure Codec (π : Type) where
  encodePayload : π → Except GoError Bytes
  encodeBatchResp : BatchResponse → Except GoError Bytes
  decodeBatchReq : Bytes → Except GoError BatchRequest
  encodeBatchReq : BatchRequest → Except GoError Bytes

/-- Observable side effects of dispatch and result encoding. -/
inductive Event (π : Type) where
  | invoke (handlerID : Nat) (action : Nat) : Event π
  | sseRoute (data : π) (broadcast : List String) (handlerID : Nat) : Event π
deriving Repr, DecidableEq

/-- The processing environment of one `CrudP` instance: the registry built by
registration, the injected codec, and the reflection-driven per-argument
decoder used by `decodeWithKnownType`. -/
structure Env (π δ : Type) where
  reg : List (ActionHandler π δ)
  codec : Codec π
  decodeArg : Nat → Bytes → Except GoError δ

/-- Embedding of `getHandlerName` (STEP_02): explicit `HandlerName()` override when the
handler implements `NamedHandler`, otherwise the runtime type name converted
by `tinystring.SnakeLow`.  The external `SnakeLow` conversion is the
parameter `snakeLow`. -/
def getHandlerName (snakeLow : String → String) {π δ : Type} (h : Handler π δ) : String :=
  match h.nameOverride with
  | some n => n
  | none => snakeLow h.typeName

/-- Embedding of `RegisterHandler` (STEP_02): rejects the first nil handler with an error,
otherwise builds one `actionHandler` per input handler in input order, with
the resolved name and the positional index.  A `none` entry models a nil
handler argument. -/
def RegisterHandler (snakeLow : String → String) {π δ : Type}
    (handlers : List (Option (Handler π δ))) :
    Except GoError (List (ActionHandler π δ)) :=
  go 0 handlers
where
  go : Nat → List (Option (Handler π δ)) → Except GoError (List (ActionHandler π δ))
    | _, [] => .ok []
    | i, none :: _ => .error s!"handler {i} is nil"
    | i, some h :: rest =>
      match go (i + 1) rest with
      | .error e => .error e
      | .ok tail =>
        .ok ({ name := getHandlerName snakeLow h, index := i, h := h } :: tail)

/-- Embedding of `GetHandlerName` (STEP_02): the resolved name at a valid index, the empty
string out of range. -/
def GetHandlerName {π δ : Type} (reg : List (ActionHandler π δ)) (handlerID : Nat) : String :=
  match reg[handlerID]? with
  | some ah => ah.name
  | none => ""

/-- The bound method `callHandler`'s switch selects for an action byte
(`c`=99, `r`=114, `u`=117, `d`=100); an unknown action or an unbound method
both fall through to the "not implemented" error. -/
def methodFor {π δ : Type} (h : Handler π δ) (action : Nat) :
    Option (Ctx → List δ → HValue π) :=
  if action = 99 then h.create
  else if action = 114 then h.read
  else if action = 117 then h.update
  else if action = 100 then h.delete
  else none

/-- Embedding of `callHandler` (STEP_02 revision, the one `packet.go` calls): bounds-check
the id, run the optional `Validator`, check the context, then dispatch to the
bound method.  Returns the Go `(any, error)` pair together with the list of
method-invocation events. -/
def callHandler {π δ : Type} (reg : List (ActionHandler π δ)) (ctx : Ctx)
    (handlerID : Nat) (action : Nat) (data : List δ) :
    Except GoError (HValue π) × List (Event π) :=
  match reg[handlerID]? with
  | none => (.error s!"no handler found for id: {handlerID}", [])
  | some ah =>
    let afterValidate : Option GoError :=
      match ah.h.validate with
      | some v => v action data
      | none => none
    match afterValidate with
    | some verr => (.error verr, [])
    | none =>
      match ctx with
      | some cerr => (.error cerr, [])
      | none =>
        match methodFor ah.h action with
        | some f => (.ok (f ctx data), [.invoke handlerID action])
        | none =>
          (.error s!"action {action} not implemented for handler: {ah.name}", [])

/-- Embedding of `decodeWithKnownType` (`handlers.go`, called from `packet.go` with the
packet's handler id): decode every argument buffer in order through the
reflection-driven decoder, stopping at the first failure. -/
def decodeWithKnownType {π δ : Type} (env : Env π δ) (handlerID : Nat) :
    List Bytes → Except GoError (List δ)
  | [] => .ok []
  | b :: rest =>
    match env.decodeArg handlerID b with
    | .error e => .error e
    | .ok v =>
      match decodeWithKnownType env handlerID rest with
      | .error e => .error e
      | .ok vs => .ok (v :: vs)

/-- The body of the `[]Response` loop of `encodeResultToPacket` (Case 1):
extract each response, route to SSE when the broadcast list is non-empty,
encode the payload, append.  Returns the buffers appended so far, the SSE
events emitted, and the first error. -/
def encodeMany {π : Type} (codec : Codec π) (handlerID : Nat) :
    List (RespObj π) → List Bytes × List (Event π) × Option GoError
  | [] => ([], [], none)
  | r :: rest =>
    match r.err with
    | some e => ([], [], some e)
    | none =>
      let evs : List (Event π) :=
        if r.broadcast = [] then [] else [.sseRoute r.data r.broadcast handlerID]
      match codec.encodePayload r.data with
      | .error e => ([], evs, some e)
      | .ok b =>
        let rec' := encodeMany codec handlerID rest
        (b :: rec'.1, evs ++ rec'.2.1, rec'.2.2)

/-- Embedding of `encodeResultToPacket` (`packet.go`): normalise the dispatcher's raw
return value into the result's `Data` field.  Mirrors the Go type switch: a
nil result leaves `pr` untouched; a `[]Response` replaces `pr.Data` with the
freshly-built buffer list (even when a later element fails); a single
`Response` or a direct value set `pr.Data` only on success. -/
def encodeResultToPacket {π : Type} (codec : Codec π) (pr : PacketResult)
    (result : HValue π) : PacketResult × List (Event π) × Option GoError :=
  match result with
  | .nil => (pr, [], none)
  | .many rs =>
    let out := encodeMany codec pr.packet.handlerID rs
    ({ pr with packet := { pr.packet with data := out.1 } }, out.2.1, out.2.2)
  | .single r =>
    match r.err with
    | some e => (pr, [], some e)
    | none =>
      let evs : List (Event π) :=
        if r.broadcast = [] then []
        else [.sseRoute r.data r.broadcast pr.packet.handlerID]
      match codec.encodePayload r.data with
      | .error e => (pr, evs, some e)
      | .ok b =>
        ({ pr with packet := { pr.packet with data := [b] } }, evs, none)
  | .direct v =>
    match codec.encodePayload v with
    | .error e => (pr, [], some e)
    | .ok b =>
      ({ pr with packet := { pr.packet with data := [b] } }, [], none)

/-- Embedding of `processSinglePacket` (`packet.go`): embed the original packet, decode its
typed arguments, dispatch, normalise the result; any step failure turns the
result into an Error-typed envelope carrying the error text, success yields
`Success`/"OK".  The second component is the event trace, the third the Go
function-level error. -/
def processSinglePacket {π δ : Type} (env : Env π δ) (ctx : Ctx) (p : Packet) :
    PacketResult × List (Event π) × Option GoError :=
  let pr : PacketResult := { packet := p, messageType := 0, message := "" }
  match decodeWithKnownType env p.handlerID p.data with
  | .error e =>
    ({ pr with messageType := msgError, message := e }, [], some e)
  | .ok args =>
    let call := callHandler env.reg ctx p.handlerID p.action args
    match call.1 with
    | .error e =>
      ({ pr with messageType := msgError, message := e }, call.2, some e)
    | .ok result =>
      let out := encodeResultToPacket env.codec pr result
      match out.2.2 with
      | some e =>
        ({ out.1 with messageType := msgError, message := e },
          call.2 ++ out.2.1, some e)
      | none =>
        ({ out.1 with messageType := msgSuccess, message := "OK" },
          call.2 ++ out.2.1, none)

/-- Embedding of `createErrorBatchResponse` (`packet.go`): a single-element response whose
only result carries the given req id, `Msg.Error` and the error text, put
through the outgoing-envelope encoder. -/
def createErrorBatchResponse {π : Type} (codec : Codec π) (reqID : String)
    (e : GoError) : Except GoError Bytes :=
  codec.encodeBatchResp
    { results := [{ packet := { action := 0, handlerID := 0, reqID := reqID, data := [] },
                    messageType := msgError, message := e }] }

/-- The packet loop of `ProcessBatch`: one result per packet in input order,
continuing past per-packet failures; event traces of all packets are
concatenated in order. -/
def processPackets {π δ : Type} (env : Env π δ) (ctx : Ctx) :
    List Packet → List PacketResult × List (Event π)
  | [] => ([], [])
  | p :: rest =>
    let one := processSinglePacket env ctx p
    let more := processPackets env ctx rest
    (one.1 :: more.1, one.2.1 ++ more.2)

/-- Embedding of `ProcessBatch` (`packet.go`): decode the envelope (a decode failure is
answered with `createErrorBatchResponse "decode_error"`), process every packet
best-effort, encode the assembled `BatchResponse`.  The `Except` is the Go
`([]byte, error)` pair; the second component is the event trace. -/
def ProcessBatch {π δ : Type} (env : Env π δ) (ctx : Ctx) (requestBytes : Bytes) :
    Except GoError Bytes × List (Event π) :=
  match env.codec.decodeBatchReq requestBytes with
  | .error e => (createErrorBatchResponse env.codec "decode_error" e, [])
  | .ok batchReq =>
    let out := processPackets env ctx batchReq.packets
    (env.codec.encodeBatchResp { results := out.1 }, out.2)

/-! ## Outbound broker (`src/unnamed/part_018`) -/

/-- One `Enqueue` call's arguments. -/
structure EnqOp where
  handlerID : Nat
  action : Nat
  reqID : String
  data : Bytes
deriving Repr, DecidableEq

/-- The consolidation key `(HandlerID, Action)`. -/
def EnqOp.key (o : EnqOp) : Nat × Nat := (o.handlerID, o.action)

/-- The consolidation key of a queued packet. -/
def Packet.key (p : Packet) : Nat × Nat := (p.handlerID, p.action)

/-- The queue scan of `broker.Enqueue`: append the data to the first queued
packet with the same `(HandlerID, Action)`, or append a fresh packet whose
`Data` holds just this buffer. -/
def enqueueList : List Packet → EnqOp → List Packet
  | [], o =>
    [{ action := o.action, handlerID := o.handlerID, reqID := o.reqID, data := [o.data] }]
  | p :: rest, o =>
    if p.handlerID = o.handlerID ∧ p.action = o.action then
      { p with data := p.data ++ [o.data] } :: rest
    else
      p :: enqueueList rest o

/-- The queue produced by a sequence of `Enqueue` calls starting from an
empty broker. -/
def runEnqueues (ops : List EnqOp) : List Packet :=
  ops.foldl enqueueList []

/-- Broker state: the pending queue and whether `SetOnFlush` has registered a
callback (the timer is real-time behaviour, outside the embedding). -/
structure BrokerState where
  queue : List Packet
  hasCallback : Bool
deriving Repr, DecidableEq

/-- Embedding of `broker.flush`: no-op on an empty queue; otherwise encode the snapshot
`BatchRequest` — on encode failure return with the queue intact — then clear
the queue and hand the bytes to the callback if one is registered.  The
second component lists the byte strings passed to the callback. -/
def flush {π : Type} (codec : Codec π) (st : BrokerState) : BrokerState × List Bytes :=
  if st.queue = [] then (st, [])
  else
    match codec.encodeBatchReq { packets := st.queue } with
    | .error _ => (st, [])
    | .ok encoded =>
      ({ st with queue := [] }, if st.hasCallback then [encoded] else [])

/-- Embedding of `broker.FlushNow`: stop the timer (not modelled) and flush. -/
def FlushNow {π : Type} (codec : Codec π) (st : BrokerState) : BrokerState × List Bytes :=
  flush codec st

/-- Embedding of `broker.Clear`: stop the timer (not modelled) and truncate the queue
without invoking the callback. -/
def Clear (st : BrokerState) : BrokerState :=
  { st with queue := [] }

/-- Closed form of the queue built by `Enqueue` from empty: one packet per
distinct `(HandlerID, Action)` key in first-appearance order, whose `ReqID`
is the first enqueue's and whose `Data` collects every same-key buffer in
enqueue order.  Proven equal to `runEnqueues` below. -/
def consolidate : List EnqOp → List Packet
  | [] => []
  | o :: rest =>
    { action := o.action, handlerID := o.handlerID, reqID := o.reqID,
      data := o.data :: (rest.filter (fun x => decide (x.key = o.key))).map EnqOp.data }
      :: consolidate (rest.filter (fun x => !decide (x.key = o.key)))
termination_by l => l.length
decreasing_by
  simp only [List.length_cons]
  exact Nat.lt_succ_of_le (List.length_filter_le _ _)

/-- Closed form of folding `Enqueue` over an arbitrary starting queue: each
existing entry absorbs the matching buffers, the remaining operations
consolidate among themselves. -/
def mergeSpec : List Packet → List EnqOp → List Packet
  | [], ops => consolidate ops
  | p :: qrest, ops =>
    { p with data := p.data ++ (ops.filter (fun o => decide (o.key = p.key))).map EnqOp.data }
      :: mergeSpec qrest (ops.filter (fun o => !decide (o.key = p.key)))

/-! ## Concrete instantiation used to exhibit witnesses

A small executable instance of the environment (`π = δ = Nat`): a codec that
fails to decode the empty byte string and otherwise yields a fixed two-packet
batch, one handler whose `Create` returns a direct value, and one handler
guarded by a validator that rejects empty argument lists (the validator of the
STEP_02 test double). -/

/-- Concrete two-packet batch used below: a valid create and a packet whose
handler id 9 is out of range. -/
def wGood : Packet := { action := 99, handlerID := 0, reqID := "r1", data := [[5]] }

/-- A packet addressing the unregistered handler id 9. -/
def wBad : Packet := { action := 99, handlerID := 9, reqID := "r2", data := [] }

/-- Concrete codec instance. -/
def wCodec : Codec Nat :=
  { encodePayload := fun v => .ok [v]
    encodeBatchResp := fun r => .ok [r.results.length]
    decodeBatchReq := fun b =>
      if b = [] then .error "decode failed" else .ok { packets := [wGood, wBad] }
    encodeBatchReq := fun r => .ok [r.packets.length] }

/-- Concrete handler whose `Create` returns a direct value. -/
def wHandler : Handler Nat Nat :=
  { typeName := "UserController", nameOverride := none, validate := none,
    create := some (fun _ _ => .direct 5),
    read := none, update := none, delete := none }

/-- Concrete handler whose `Create` returns nil. -/
def wHandlerNil : Handler Nat Nat :=
  { wHandler with create := some (fun _ _ => .nil) }

/-- The validator of the STEP_02 `ValidatedHandler` test double: rejects an
empty argument list. -/
def wValFn : Nat → List Nat → Option GoError :=
  fun _ ds => if ds = [] then some "no data provided" else none

/-- Concrete handler guarded by `wValFn`. -/
def wHandlerVal : Handler Nat Nat :=
  { wHandler with typeName := "ValidatedHandler", validate := some wValFn }

/-- Registry entry for `wHandler`. -/
def wEntry : ActionHandler Nat Nat := { name := "user_controller", index := 0, h := wHandler }

/-- Registry entry for `wHandlerVal`. -/
def wEntryVal : ActionHandler Nat Nat :=
  { name := "validated_handler", index := 0, h := wHandlerVal }

/-- Registry entry for `wHandlerNil`. -/
def wEntryNil : ActionHandler Nat Nat := { name := "user_controller", index := 0, h := wHandlerNil }

/-- Concrete environment with `wHandler` registered at slot 0. -/
def wEnv : Env Nat Nat :=
  { reg := [wEntry], codec := wCodec, decodeArg := fun _ b => .ok b.length }

/-- Concrete environment with the validated handler at slot 0. -/
def wEnvVal : Env Nat Nat := { wEnv with reg := [wEntryVal] }

/-- Concrete environment with the nil-returning handler at slot 0. -/
def wEnvNil : Env Nat Nat := { wEnv with reg := [wEntryNil] }

/-- A broadcast-capable response targeting channel "u1". -/
def wResp1 : RespObj Nat := { data := 11, broadcast := ["u1"], err := none }

/-- A broadcast-capable response targeting channel "u2". -/
def wResp2 : RespObj Nat := { data := 22, broadcast := ["u2"], err := none }

/-- A codec whose outgoing batch-request encode always fails. -/
def wCodecBad : Codec Nat := { wCodec with encodeBatchReq := fun _ => .error "encode failed" }

/-- Concrete enqueue operations: three sharing key (0, create) with req ids
"a", "b", "c" and one with the distinct key (1, create). -/
def wOpA : EnqOp := { handlerID := 0, action := 99, reqID := "a", data := [1] }

/-- Second enqueue of the shared key. -/
def wOpB : EnqOp := { handlerID := 0, action := 99, reqID := "b", data := [2] }

/-- Third enqueue of the shared key. -/
def wOpC : EnqOp := { handlerID := 0, action := 99, reqID := "c", data := [3] }

/-- An enqueue with a distinct key. -/
def wOpX : EnqOp := { handlerID := 1, action := 99, reqID := "x", data := [9] }

/-- The interleaved enqueue sequence used as a witness. -/
def wOps : List EnqOp := [wOpA, wOpX, wOpB, wOpC]

/-- The packet the broker's queue holds for the shared key after `wOps`. -/
def wConsolidated : Packet :=
  { action := 99, handlerID := 0, reqID := "a", data := [[1], [2], [3]] }

/-! ## General lemmas about the batch processor -/

/-- The packet loop produces exactly one result per packet, in input order. -/
theorem processPackets_fst {π δ : Type} (env : Env π δ) (ctx : Ctx) (ps : List Packet) :
    (processPackets env ctx ps).1 = ps.map (fun p => (processSinglePacket env ctx p).1) := by
  induction ps with
  | nil => rfl
  | cons p rest ih => simp [processPackets, ih]

/-- When the envelope decodes, `ProcessBatch` encodes the per-packet outcomes
of every packet, in order. -/
theorem ProcessBatch_ok {π δ : Type} (env : Env π δ) (ctx : Ctx) (bytes : Bytes)
    (req : BatchRequest) (h : env.codec.decodeBatchReq bytes = .ok req) :
    (ProcessBatch env ctx bytes).1 =
      env.codec.encodeBatchResp
        { results := req.packets.map (fun p => (processSinglePacket env ctx p).1) } := by
  simp [ProcessBatch, h, processPackets_fst]

/-- The message type of a single-packet outcome follows its function-level
error: `Success`/"OK" without one, `Error` with the error text otherwise. -/
theorem processSinglePacket_spec {π δ : Type} (env : Env π δ) (ctx : Ctx) (p : Packet)
    (r : PacketResult) (evs : List (Event π)) (oe : Option GoError)
    (h : processSinglePacket env ctx p = (r, evs, oe)) :
    (oe = none → r.messageType = msgSuccess ∧ r.message = "OK") ∧
    (∀ e, oe = some e → r.messageType = msgError ∧ r.message = e) := by
  unfold processSinglePacket at h
  dsimp only at h
  repeat' split at h
  all_goals
    injection h with h1 h2
  all_goals
    injection h2 with h2 h3
  all_goals subst h1; subst h2; subst h3; simp_all

/-- Dispatching with an out-of-range id fails with the lookup error and
invokes nothing. -/
theorem callHandler_no_handler {π δ : Type} (reg : List (ActionHandler π δ)) (ctx : Ctx)
    (hid act : Nat) (args : List δ) (h : reg.length ≤ hid) :
    callHandler reg ctx hid act args =
      ((.error s!"no handler found for id: {hid}" : Except GoError (HValue π)), []) := by
  unfold callHandler
  rw [List.getElem?_eq_none h]

/-- A packet addressing an out-of-range handler id always yields an
Error-typed result (either the argument decode fails, or the lookup does). -/
theorem processSinglePacket_invalid {π δ : Type} (env : Env π δ) (ctx : Ctx) (p : Packet)
    (h : env.reg.length ≤ p.handlerID) :
    (processSinglePacket env ctx p).1.messageType = msgError ∧
    ∃ e, (processSinglePacket env ctx p).2.2 = some e := by
  have hch := callHandler_no_handler (π := π) env.reg ctx p.handlerID p.action
  unfold processSinglePacket
  cases hdec : decodeWithKnownType env p.handlerID p.data with
  | error e => simp [hdec]
  | ok args => simp [hdec, hch args h]

/-- A list whose predicate holds at exactly one index has `countP` one. -/
theorem countP_eq_one_of_unique {α : Type} (l : List α) (q : α → Bool) :
    ∀ i (hi : i < l.length), q l[i] = true →
      (∀ j (hj : j < l.length), j ≠ i → q l[j] = false) → l.countP q = 1 := by
  induction l with
  | nil => intro i hi; simp at hi
  | cons a t ih =>
    intro i hi hq hothers
    cases i with
    | zero =>
      have h0 : q a = true := hq
      have ht : t.countP q = 0 := by
        rw [List.countP_eq_zero]
        intro x hx
        obtain ⟨j, hj, rfl⟩ := List.mem_iff_getElem.mp hx
        have hj1 : j + 1 < (a :: t).length := by simpa using Nat.succ_lt_succ hj
        have := hothers (j + 1) hj1 (by omega)
        simpa using this
      rw [List.countP_cons_of_pos _ _ h0, ht]
    | succ k =>
      have ha : q a = false := by
        have := hothers 0 (by simp) (by omega)
        simpa using this
      rw [List.countP_cons_of_neg _ _ (by simp [ha])]
      refine ih k (by simpa using Nat.lt_of_succ_lt_succ hi) (by simpa using hq) ?_
      intro j hj hne
      have hj1 : j + 1 < (a :: t).length := by simpa using Nat.succ_lt_succ hj
      have := hothers (j + 1) hj1 (by omega)
      simpa using this

/-! ## Claim theorems: batch processor -/

/-- Claim C1: for every batch of N packets, the BatchResponse encoded by
`ProcessBatch` holds exactly the N per-packet outcomes in processing order;
when exactly one packet addresses an out-of-range handler id and every other
packet processes without error, exactly that packet's result has
messageType=Error, the others carry their own outcomes, and processing is
never aborted. -/
theorem claim_C1 {π δ : Type} (env : Env π δ) (ctx : Ctx) (bytes : Bytes)
    (packets : List Packet) (i : Nat)
    (hdec : env.codec.decodeBatchReq bytes = .ok { packets := packets })
    (hi : i < packets.length)
    (hbad : env.reg.length ≤ packets[i].handlerID)
    (hok : ∀ j (hj : j < packets.length), j ≠ i →
      (processSinglePacket env ctx packets[j]).2.2 = none) :
    (ProcessBatch env ctx bytes).1 =
      env.codec.encodeBatchResp
        { results := packets.map (fun q => (processSinglePacket env ctx q).1) } ∧
    (packets.map (fun q => (processSinglePacket env ctx q).1)).length = packets.length ∧
    ((packets.map (fun q => (processSinglePacket env ctx q).1))[i]?).map
        PacketResult.messageType = some msgError ∧
    (packets.map (fun q => (processSinglePacket env ctx q).1)).countP
        (fun r => decide (r.messageType = msgError)) = 1 := by
  refine ⟨ProcessBatch_ok env ctx bytes _ hdec, by simp, ?_, ?_⟩
  · rw [List.getElem?_map, List.getElem?_eq_getElem hi]
    simpa using (processSinglePacket_invalid env ctx _ hbad).1
  · rw [List.countP_map]
    apply countP_eq_one_of_unique packets _ i hi
    · simpa [Function.comp] using (processSinglePacket_invalid env ctx _ hbad).1
    · intro j hj hne
      have hnone := hok j hj hne
      have hspec := processSinglePacket_spec env ctx packets[j]
        (processSinglePacket env ctx packets[j]).1
        (processSinglePacket env ctx packets[j]).2.1
        (processSinglePacket env ctx packets[j]).2.2 rfl
      have hsucc := (hspec.1 hnone).1
      simp [Function.comp, hsucc, msgSuccess, msgError]

/-- Claim C1 witness: the concrete two-packet batch (one valid create and one
packet with handler id 9) at the concrete environment. -/
theorem claim_C1_witness :
    (ProcessBatch wEnv none [1]).1 =
      wEnv.codec.encodeBatchResp
        { results := [wGood, wBad].map (fun q => (processSinglePacket wEnv none q).1) } ∧
    ([wGood, wBad].map (fun q => (processSinglePacket wEnv none q).1)).length =
      [wGood, wBad].length ∧
    (([wGood, wBad].map (fun q => (processSinglePacket wEnv none q).1))[1]?).map
        PacketResult.messageType = some msgError ∧
    ([wGood, wBad].map (fun q => (processSinglePacket wEnv none q).1)).countP
        (fun r => decide (r.messageType = msgError)) = 1 :=
  claim_C1 wEnv none [1] [wGood, wBad] 1 rfl (by decide) (by decide)
    (by
      intro j hj hne
      simp at hj
      have h0 : j = 0 := by omega
      subst h0
      simp only [List.getElem_cons_zero]
      decide)

/-- Claim C2: a batch-envelope decode failure is answered with a well-formed
single-result BatchResponse whose only result is Error-typed and carries the
decode error text; on the success path `ProcessBatch` likewise factors through
the final envelope encode — so a function-level error can only come from
encoding the outgoing envelope. -/
theorem claim_C2 {π δ : Type} (env : Env π δ) (ctx : Ctx)
    (bytes1 : Bytes) (e : GoError) (bytes2 : Bytes) (req2 : BatchRequest)
    (h1 : env.codec.decodeBatchReq bytes1 = .error e)
    (h2 : env.codec.decodeBatchReq bytes2 = .ok req2) :
    (ProcessBatch env ctx bytes1).1 =
      env.codec.encodeBatchResp
        { results := [{ packet := { action := 0, handlerID := 0, reqID := "decode_error", data := [] },
                        messageType := msgError, message := e }] } ∧
    (ProcessBatch env ctx bytes2).1 =
      env.codec.encodeBatchResp
        { results := req2.packets.map (fun q => (processSinglePacket env ctx q).1) } :=
  ⟨by simp [ProcessBatch, h1, createErrorBatchResponse],
   ProcessBatch_ok env ctx bytes2 req2 h2⟩

/-- Claim C2 witness: the concrete codec fails to decode the empty byte
string and decodes `[1]` into the two-packet batch. -/
theorem claim_C2_witness :
    (ProcessBatch wEnv none []).1 =
      wEnv.codec.encodeBatchResp
        { results := [{ packet := { action := 0, handlerID := 0, reqID := "decode_error", data := [] },
                        messageType := msgError, message := "decode failed" }] } ∧
    (ProcessBatch wEnv none [1]).1 =
      wEnv.codec.encodeBatchResp
        { results := BatchRequest.packets { packets := [wGood, wBad] }
            |>.map (fun q => (processSinglePacket wEnv none q).1) } :=
  claim_C2 wEnv none [] "decode failed" [1] { packets := [wGood, wBad] } rfl rfl

/-! ## Claim theorems: dispatcher -/

/-- Claim C7: when the resolved handler carries a `Validator` and it rejects
the argument sequence, `callHandler` returns exactly that validation error
and the event trace is empty — no CRUD method of the handler is invoked. -/
theorem claim_C7 {π δ : Type} (reg : List (ActionHandler π δ)) (ctx : Ctx)
    (hid act : Nat) (args : List δ) (ah : ActionHandler π δ)
    (hah : reg[hid]? = some ah)
    (v : Nat → List δ → Option GoError) (hv : ah.h.validate = some v)
    (verr : GoError) (hrej : v act args = some verr) :
    callHandler reg ctx hid act args = ((.error verr : Except GoError (HValue π)), []) := by
  unfold callHandler
  rw [hah]
  simp [hv, hrej]

/-- Claim C7 witness: the STEP_02 validated-handler double rejecting an empty
argument list at the concrete registry. -/
theorem claim_C7_witness :
    callHandler wEnvVal.reg none 0 99 ([] : List Nat) =
      ((.error "no data provided" : Except GoError (HValue Nat)), []) :=
  claim_C7 wEnvVal.reg none 0 99 [] wEntryVal rfl wValFn rfl "no data provided" (by decide)

/-- Claim C8: a context that is already cancelled when the dispatcher reaches
its cancellation check (valid handler id, validation passing) makes
`callHandler` return the context's error with an empty event trace (handler
not invoked), the affected packet's result is Error-typed with that text, and
the batch loop still encodes every packet's own outcome in order. -/
theorem claim_C8 {π δ : Type} (env : Env π δ) (cerr : GoError) (p : Packet)
    (args : List δ) (ah : ActionHandler π δ) (bytes : Bytes) (req : BatchRequest)
    (hah : env.reg[p.handlerID]? = some ah)
    (hval : ∀ v, ah.h.validate = some v → v p.action args = none)
    (hdec : decodeWithKnownType env p.handlerID p.data = .ok args)
    (hreq : env.codec.decodeBatchReq bytes = .ok req) :
    callHandler env.reg (some cerr) p.handlerID p.action args
      = ((.error cerr : Except GoError (HValue π)), []) ∧
    (processSinglePacket env (some cerr) p).1.messageType = msgError ∧
    (processSinglePacket env (some cerr) p).1.message = cerr ∧
    (ProcessBatch env (some cerr) bytes).1 =
      env.codec.encodeBatchResp
        { results := req.packets.map (fun q => (processSinglePacket env (some cerr) q).1) } := by
  have hch : callHandler env.reg (some cerr) p.handlerID p.action args
      = ((.error cerr : Except GoError (HValue π)), []) := by
    unfold callHandler
    rw [hah]
    cases hv : ah.h.validate with
    | none => simp [hv]
    | some v => simp [hv, hval v hv]
  refine ⟨hch, ?_, ?_, ProcessBatch_ok env (some cerr) bytes req hreq⟩
  · unfold processSinglePacket
    simp [hdec, hch]
  · unfold processSinglePacket
    simp [hdec, hch]

/-- Claim C8 witness: the concrete environment with a cancelled context on the
valid create packet, alongside the concrete two-packet batch. -/
theorem claim_C8_witness :
    callHandler wEnv.reg (some "context canceled") wGood.handlerID wGood.action [1]
      = ((.error "context canceled" : Except GoError (HValue Nat)), []) ∧
    (processSinglePacket wEnv (some "context canceled") wGood).1.messageType = msgError ∧
    (processSinglePacket wEnv (some "context canceled") wGood).1.message = "context canceled" ∧
    (ProcessBatch wEnv (some "context canceled") [1]).1 =
      wEnv.codec.encodeBatchResp
        { results := BatchRequest.packets { packets := [wGood, wBad] }
            |>.map (fun q => (processSinglePacket wEnv (some "context canceled") q).1) } :=
  claim_C8 wEnv "context canceled" wGood [1] wEntry [1] { packets := [wGood, wBad] }
    rfl (by intro v hv; simp [wEntry, wHandler] at hv) rfl rfl

/-! ## Claim theorems: result normalisation (C5, C6) -/

/-- A successful dispatch has exactly one method-invocation event. -/
theorem callHandler_ok_events {π δ : Type} (reg : List (ActionHandler π δ)) (ctx : Ctx)
    (hid act : Nat) (args : List δ) (v : HValue π)
    (h : (callHandler reg ctx hid act args).1 = .ok v) :
    (callHandler reg ctx hid act args).2 = [.invoke hid act] := by
  unfold callHandler at h ⊢
  cases hreg : reg[hid]? with
  | none => rw [hreg] at h; nomatch h
  | some ah =>
    rw [hreg] at h
    dsimp only at h ⊢
    cases hva : (match ah.h.validate with
        | some vf => vf act args
        | none => none : Option GoError) with
    | some e => rw [hva] at h; nomatch h
    | none =>
      rw [hva] at h
      cases ctx with
      | some ce => nomatch h
      | none =>
        cases hm : methodFor ah.h act with
        | some f => rfl
        | none => rw [hm] at h; nomatch h

/-- Claim C5, counterexample: with the nil-returning handler and the concrete
create packet carrying one argument buffer, the dispatcher's raw return value
is nil, the result is Success-typed and triggers no SSE routing, yet its data
sequence is the packet's original buffer list — not empty as claimed. -/
theorem claim_C5_counterexample :
    (callHandler wEnvNil.reg none wGood.handlerID wGood.action [1]).1
      = .ok (HValue.nil : HValue Nat) ∧
    (processSinglePacket wEnvNil none wGood).1.messageType = msgSuccess ∧
    (processSinglePacket wEnvNil none wGood).2.1 = [Event.invoke 0 99] ∧
    ¬ (processSinglePacket wEnvNil none wGood).1.packet.data = [] :=
  ⟨rfl, rfl, rfl, by decide⟩

/-- Claim C5, amended: when the dispatcher's raw return value for a packet is
nil, no output buffer is appended and no broadcast routing happens — the
result keeps the request packet's data sequence unchanged (so it is empty
exactly when the request carried no argument buffers) — and the result still
reports messageType=Success with message "OK"; the only event is the single
method invocation. -/
theorem claim_C5 {π δ : Type} (env : Env π δ) (ctx : Ctx) (p : Packet) (args : List δ)
    (hdec : decodeWithKnownType env p.handlerID p.data = .ok args)
    (hcall : (callHandler env.reg ctx p.handlerID p.action args).1
      = .ok (HValue.nil : HValue π)) :
    processSinglePacket env ctx p =
      ({ packet := p, messageType := msgSuccess, message := "OK" },
       [Event.invoke p.handlerID p.action], none) := by
  have hev := callHandler_ok_events env.reg ctx p.handlerID p.action args _ hcall
  unfold processSinglePacket
  simp [hdec, hcall, hev, encodeResultToPacket]

/-- Claim C5 amended, witness: the nil-returning handler on the concrete
packet with one argument buffer. -/
theorem claim_C5_witness :
    processSinglePacket wEnvNil none wGood =
      ({ packet := wGood, messageType := msgSuccess, message := "OK" },
       [Event.invoke wGood.handlerID wGood.action], none) :=
  claim_C5 wEnvNil none wGood [1] rfl rfl

/-- A traversal that succeeds produces one output per input. -/
theorem mapM_ok_length {α β : Type} (f : α → Except GoError β) :
    ∀ (l : List α) (out : List β), l.mapM f = .ok out → out.length = l.length := by
  intro l
  induction l with
  | nil => intro out h; simp only [List.mapM_nil] at h; cases h; rfl
  | cons a t ih =>
    intro out h
    rw [List.mapM_cons] at h
    cases hb : f a with
    | error e => rw [hb] at h; nomatch h
    | ok b =>
      rw [hb] at h
      cases ht : t.mapM f with
      | error e => rw [ht] at h; nomatch h
      | ok bs =>
        rw [ht] at h
        cases h
        simp [ih bs ht]

/-- The `[]Response` loop on a fully-extracting, fully-encoding sequence:
every buffer is appended in order, one SSE-routing event fires per response
with a non-empty broadcast list, and no error is reported. -/
theorem encodeMany_ok {π : Type} (codec : Codec π) (hid : Nat) :
    ∀ (rs : List (RespObj π)) (bufs : List Bytes),
      (∀ r ∈ rs, r.err = none) →
      rs.mapM (fun r => codec.encodePayload r.data) = .ok bufs →
      encodeMany codec hid rs =
        (bufs,
         (rs.filter (fun r => !decide (r.broadcast = []))).map
           (fun r => Event.sseRoute r.data r.broadcast hid),
         none) := by
  intro rs
  induction rs with
  | nil =>
    intro bufs _ henc
    simp only [List.mapM_nil] at henc
    cases henc
    rfl
  | cons r rest ih =>
    intro bufs hext henc
    have hr : r.err = none := hext r (by simp)
    rw [List.mapM_cons] at henc
    cases hb : codec.encodePayload r.data with
    | error e => rw [hb] at henc; nomatch henc
    | ok b =>
      rw [hb] at henc
      cases ht : rest.mapM (fun r => codec.encodePayload r.data) with
      | error e => rw [ht] at henc; nomatch henc
      | ok bs =>
        rw [ht] at henc
        cases henc
        have hrest := ih bs (fun x hx => hext x (by simp [hx])) ht
        by_cases hbc : r.broadcast = []
        · simp [encodeMany, hr, hb, hrest, hbc]
        · simp [encodeMany, hr, hb, hrest, hbc]

/-- Claim C6: a handler result that is a sequence of n broadcast-capable
responses, all extracting without error (and all of whose payloads the codec
encodes), yields a result whose data holds exactly the n encoded buffers in
sequence order, with the SSE router invoked exactly once per response whose
broadcast-target list is non-empty, carrying that response's payload. -/
theorem claim_C6 {π : Type} (codec : Codec π) (pr : PacketResult)
    (rs : List (RespObj π)) (bufs : List Bytes)
    (hext : ∀ r ∈ rs, r.err = none)
    (henc : rs.mapM (fun r => codec.encodePayload r.data) = .ok bufs) :
    encodeResultToPacket codec pr (.many rs) =
      ({ pr with packet := { pr.packet with data := bufs } },
       (rs.filter (fun r => !decide (r.broadcast = []))).map
         (fun r => Event.sseRoute r.data r.broadcast pr.packet.handlerID),
       none) ∧
    bufs.length = rs.length := by
  have h := encodeMany_ok codec pr.packet.handlerID rs bufs hext henc
  exact ⟨by simp [encodeResultToPacket, h],
         mapM_ok_length (fun r => codec.encodePayload r.data) rs bufs henc⟩

/-- Claim C6 witness: two broadcast-capable responses targeting channels
"u1" and "u2", processed with the concrete codec. -/
theorem claim_C6_witness :
    encodeResultToPacket wCodec { packet := wGood, messageType := 0, message := "" }
        (.many [wResp1, wResp2]) =
      ({ packet := { action := 99, handlerID := 0, reqID := "r1", data := [[11], [22]] },
         messageType := 0, message := "" },
       [Event.sseRoute 11 ["u1"] 0, Event.sseRoute 22 ["u2"] 0],
       none) ∧
    ([[11], [22]] : List Bytes).length = [wResp1, wResp2].length := by
  have h := claim_C6 wCodec { packet := wGood, messageType := 0, message := "" }
    [wResp1, wResp2] [[11], [22]] (by decide) rfl
  exact ⟨by rw [h.1]; decide, h.2⟩

/-! ## Claim theorems: handler registry (C3) -/

/-- The registration loop on an all-non-nil input succeeds and records, slot
by slot, the resolved name of the handler at the same input position. -/
theorem RegisterHandler_go_ok {π δ : Type} (snakeLow : String → String) :
    ∀ (hs : List (Option (Handler π δ))) (i0 : Nat),
      (∀ x ∈ hs, x.isSome) →
      ∃ reg : List (ActionHandler π δ),
        RegisterHandler.go snakeLow i0 hs = .ok reg ∧ reg.length = hs.length ∧
        ∀ (j : Nat) (h : Handler π δ), hs[j]? = some (some h) →
          reg[j]?.map ActionHandler.name = some (getHandlerName snakeLow h) := by
  intro hs
  induction hs with
  | nil =>
    intro i0 _
    exact ⟨[], rfl, rfl, by intro j h hj; simp at hj⟩
  | cons x rest ih =>
    intro i0 hall
    cases x with
    | none => have := hall none (by simp); simp at this
    | some h0 =>
      obtain ⟨tail, htail, hlen, hnames⟩ := ih (i0 + 1) (fun x hx => hall x (by simp [hx]))
      refine ⟨{ name := getHandlerName snakeLow h0, index := i0, h := h0 } :: tail,
        ?_, by simp [hlen], ?_⟩
      · unfold RegisterHandler.go
        rw [htail]
      · intro j h hj
        cases j with
        | zero =>
          simp only [List.getElem?_cons_zero, Option.some.injEq] at hj
          subst hj
          simp
        | succ k =>
          simp only [List.getElem?_cons_succ] at hj ⊢
          exact hnames k h hj

/-- Claim C3: registering any sequence of non-nil handlers succeeds, and
afterwards `GetHandlerName` returns, for every in-range index, the name
resolved for the handler at that position (explicit override or the
snake-cased type name), and the empty string for every out-of-range index
(it is a total function — no panic). -/
theorem claim_C3 {π δ : Type} (snakeLow : String → String)
    (handlers : List (Option (Handler π δ)))
    (hall : ∀ x ∈ handlers, x.isSome)
    (i : Nat) (h : Handler π δ) (hih : handlers[i]? = some (some h))
    (j : Nat) (hj : handlers.length ≤ j) :
    ∃ reg, RegisterHandler snakeLow handlers = .ok reg ∧
      GetHandlerName reg i = getHandlerName snakeLow h ∧
      GetHandlerName reg j = "" := by
  obtain ⟨reg, hgo, hlen, hnames⟩ := RegisterHandler_go_ok snakeLow handlers 0 hall
  refine ⟨reg, hgo, ?_, ?_⟩
  · have hn := hnames i h hih
    unfold GetHandlerName
    cases hri : reg[i]? with
    | none => rw [hri] at hn; simp at hn
    | some ah =>
      rw [hri] at hn
      simp only [Option.map_some', Option.some.injEq] at hn
      simpa using hn
  · have hnone : reg[j]? = none := List.getElem?_eq_none (by omega)
    unfold GetHandlerName
    rw [hnone]

/-- Claim C3 witness: one handler without a name override, checked at the
in-range index 0 and the out-of-range index 1. -/
theorem claim_C3_witness :
    ∃ reg, RegisterHandler (fun x => "snake_" ++ x) [some wHandler] = .ok reg ∧
      GetHandlerName reg 0 = getHandlerName (fun x => "snake_" ++ x) wHandler ∧
      GetHandlerName reg 1 = "" :=
  claim_C3 (fun x => "snake_" ++ x) [some wHandler]
    (by intro x hx; simp at hx; subst hx; rfl) 0 wHandler rfl 1 (by simp)

/-! ## Broker lemmas and claim theorems (C4, C9, C10) -/

/-- Folding no enqueues changes nothing. -/
theorem mergeSpec_nil : ∀ (q : List Packet), mergeSpec q [] = q := by
  intro q
  induction q with
  | nil => simp [mergeSpec, consolidate]
  | cons p qr ih => simp [mergeSpec, ih]

/-- One `Enqueue` step commutes with the closed form `mergeSpec`. -/
theorem mergeSpec_enqueue (o : EnqOp) :
    ∀ (q : List Packet) (ops : List EnqOp),
      mergeSpec (enqueueList q o) ops = mergeSpec q (o :: ops) := by
  intro q
  induction q with
  | nil =>
    intro ops
    simp only [enqueueList, mergeSpec, consolidate, Packet.key, EnqOp.key,
      List.singleton_append]
  | cons p qr ih =>
    intro ops
    by_cases hc : p.handlerID = o.handlerID ∧ p.action = o.action
    · simp only [enqueueList, if_pos hc, mergeSpec, Packet.key, EnqOp.key,
        List.filter_cons, hc.1, hc.2]
      simp [List.append_assoc]
    · have hkey : ((o.handlerID, o.action) = (p.handlerID, p.action)) = False := by
        simp only [Prod.mk.injEq, eq_iff_iff, iff_false, not_and]
        intro h1 h2
        exact absurd ⟨h1.symm, h2.symm⟩ hc
      simp only [enqueueList, if_neg hc, mergeSpec, Packet.key, EnqOp.key,
        List.filter_cons, hkey, decide_False, Bool.not_false, ih,
        Bool.false_eq_true, if_false, Bool.not_true, if_true]

/-- Folding `Enqueue` over any starting queue yields the closed form. -/
theorem foldl_enqueue : ∀ (ops : List EnqOp) (q : List Packet),
    ops.foldl enqueueList q = mergeSpec q ops := by
  intro ops
  induction ops with
  | nil => intro q; simp [mergeSpec_nil]
  | cons o rest ih =>
    intro q
    rw [List.foldl_cons, ih (enqueueList q o), mergeSpec_enqueue]

/-- The queue built from empty is exactly the consolidation of the enqueue
sequence. -/
theorem runEnqueues_eq_consolidate (ops : List EnqOp) :
    runEnqueues ops = consolidate ops := by
  rw [runEnqueues, foldl_enqueue]
  rfl

/-- Filtering away only elements the search predicate rejects leaves the
first hit unchanged. -/
theorem find?_filter_compat {α : Type} (pr q : α → Bool)
    (himp : ∀ x, pr x = true → q x = true) :
    ∀ l : List α, (l.filter q).find? pr = l.find? pr := by
  intro l
  induction l with
  | nil => rfl
  | cons a t ih =>
    cases hq : q a
    · have hpa : pr a = false := by
        cases hpr : pr a
        · rfl
        · exact absurd (himp a hpr) (by simp [hq])
      simp [List.filter_cons, hq, List.find?_cons, hpa, ih]
    · cases hpr : pr a
      · simp [List.filter_cons, hq, List.find?_cons, hpr, ih]
      · simp [List.filter_cons, hq, List.find?_cons, hpr]

/-- Every consolidated entry's key comes from some enqueue. -/
theorem consolidate_key_mem : ∀ (ops : List EnqOp) (p : Packet),
    p ∈ consolidate ops → p.key ∈ ops.map EnqOp.key := by
  intro ops
  induction ops using consolidate.induct with
  | case1 => intro p hp; simp [consolidate] at hp
  | case2 o rest ih =>
    intro p hp
    rw [consolidate] at hp
    rcases List.mem_cons.mp hp with h | h
    · subst h
      simp [Packet.key, EnqOp.key]
    · have := ih p h
      have hsub : List.Sublist
          ((rest.filter (fun x => !decide (x.key = o.key))).map EnqOp.key)
          (rest.map EnqOp.key) := List.Sublist.map EnqOp.key (List.filter_sublist rest)
      simp only [List.map_cons]
      exact List.mem_cons_of_mem _ (hsub.subset this)

/-- Each consolidated entry carries the req id of the FIRST enqueue of its
key and the data buffers of all same-key enqueues in order. -/
theorem consolidate_entry : ∀ (ops : List EnqOp) (p : Packet),
    p ∈ consolidate ops →
      ∃ o0, ops.find? (fun o => decide (o.key = p.key)) = some o0 ∧
        p.reqID = o0.reqID ∧
        p.data = (ops.filter (fun o => decide (o.key = p.key))).map EnqOp.data := by
  intro ops
  induction ops using consolidate.induct with
  | case1 => intro p hp; simp [consolidate] at hp
  | case2 o rest ih =>
    intro p hp
    rw [consolidate] at hp
    rcases List.mem_cons.mp hp with h | h
    · subst h
      refine ⟨o, ?_, rfl, ?_⟩
      · simp [List.find?_cons, Packet.key, EnqOp.key]
      · simp [List.filter_cons, Packet.key, EnqOp.key]
    · obtain ⟨o0, hfind, hreq, hdata⟩ := ih p h
      have hpk : p.key ∈ (rest.filter (fun x => !decide (x.key = o.key))).map EnqOp.key := by
        have := consolidate_key_mem _ p h
        exact this
      have hne : ¬ p.key = o.key := by
        rcases List.mem_map.mp hpk with ⟨x, hx, hxk⟩
        have := (List.mem_filter.mp hx).2
        simp only [Bool.not_eq_true', decide_eq_false_iff_not] at this
        rw [← hxk]
        exact this
      have hfind2 : rest.find? (fun x => decide (x.key = p.key)) = some o0 := by
        rw [← find?_filter_compat (fun x => decide (x.key = p.key))
          (fun x => !decide (x.key = o.key)) ?_ rest]
        · exact hfind
        · intro x hx
          simp only [decide_eq_true_eq] at hx
          simp [hx, hne]
      refine ⟨o0, ?_, hreq, ?_⟩
      · rw [List.find?_cons]
        have : (decide (o.key = p.key)) = false := by
          simp; intro hco; exact absurd hco.symm hne
        rw [this]
        exact hfind2
      · have hfeq : (rest.filter (fun x => !decide (x.key = o.key))).filter
            (fun x => decide (x.key = p.key))
            = rest.filter (fun x => decide (x.key = p.key)) := by
          rw [List.filter_filter]
          apply List.filter_congr
          intro x _
          cases hx : decide (x.key = p.key)
          · simp
          · simp only [decide_eq_true_eq] at hx
            simp [hx, hne]
        rw [hdata, hfeq]
        have : (decide (o.key = p.key)) = false := by
          simp; intro hco; exact absurd hco.symm hne
        simp [List.filter_cons, this]

/-- Consolidation never stores two entries with the same key. -/
theorem consolidate_keys_nodup : ∀ (ops : List EnqOp),
    ((consolidate ops).map Packet.key).Nodup := by
  intro ops
  induction ops using consolidate.induct with
  | case1 => simp [consolidate]
  | case2 o rest ih =>
    rw [consolidate]
    simp only [List.map_cons, List.nodup_cons]
    constructor
    · intro hmem
      rcases List.mem_map.mp hmem with ⟨p, hp, hpk⟩
      have := consolidate_key_mem _ p hp
      rcases List.mem_map.mp this with ⟨x, hx, hxk⟩
      have hxne := (List.mem_filter.mp hx).2
      simp only [Bool.not_eq_true', decide_eq_false_iff_not] at hxne
      apply hxne
      rw [hxk, hpk]
      simp [Packet.key, EnqOp.key]
    · exact ih

/-- With pairwise-distinct keys, nothing merges. -/
theorem consolidate_nodup_length : ∀ (ops : List EnqOp),
    (ops.map EnqOp.key).Nodup → (consolidate ops).length = ops.length := by
  intro ops
  induction ops using consolidate.induct with
  | case1 => intro _; simp [consolidate]
  | case2 o rest ih =>
    intro hnd
    simp only [List.map_cons, List.nodup_cons] at hnd
    have hid : rest.filter (fun x => !decide (x.key = o.key)) = rest := by
      apply List.filter_eq_self.mpr
      intro x hx
      simp only [Bool.not_eq_true', decide_eq_false_iff_not]
      intro hxk
      exact hnd.1 (by rw [← hxk]; exact List.mem_map_of_mem EnqOp.key hx)
    rw [hid] at ih
    rw [consolidate, List.length_cons, hid, ih hnd.2]
    simp

/-- A filter that can only discard elements a second filter would also
discard does not change the second filter's output. -/
theorem filter_filter_of_imp {α : Type} (p q : α → Bool) (l : List α)
    (h : ∀ x ∈ l, q x = true → p x = true) :
    (l.filter p).filter q = l.filter q := by
  induction l with
  | nil => rfl
  | cons a t ih =>
    have ht : ∀ x ∈ t, q x = true → p x = true :=
      fun x hx => h x (List.mem_cons_of_mem a hx)
    cases hp : p a
    · have hq : q a = false := by
        cases hqa : q a
        · rfl
        · exact absurd (h a (List.mem_cons_self a t) hqa) (by simp [hp])
      simp [List.filter_cons, hp, hq, ih ht]
    · cases hq : q a <;> simp [List.filter_cons, hp, hq, ih ht]

/-- Queue size after consolidating k same-key enqueues (k at least 1) with
pairwise-distinct other keys. -/
theorem consolidate_length_C4 (K : Nat × Nat) : ∀ (ops : List EnqOp),
    1 ≤ (ops.filter (fun o => decide (o.key = K))).length →
    ((ops.filter (fun o => !decide (o.key = K))).map EnqOp.key).Nodup →
    (consolidate ops).length = 1 + (ops.filter (fun o => !decide (o.key = K))).length := by
  intro ops
  induction ops using consolidate.induct with
  | case1 => intro hk _; simp at hk
  | case2 o rest ih =>
    intro hk hnd
    by_cases hoK : o.key = K
    · have hdrop : (o :: rest).filter (fun x => !decide (x.key = K))
          = rest.filter (fun x => !decide (x.key = K)) := by
        simp [List.filter_cons, hoK]
      have hfl : rest.filter (fun x => !decide (x.key = o.key))
          = rest.filter (fun x => !decide (x.key = K)) := by
        apply List.filter_congr
        intro x _
        rw [hoK]
      rw [hdrop] at hnd ⊢
      rw [consolidate, List.length_cons, hfl, consolidate_nodup_length _ hnd]
      omega
    · have hkeep : (o :: rest).filter (fun x => !decide (x.key = K))
          = o :: rest.filter (fun x => !decide (x.key = K)) := by
        simp [List.filter_cons, hoK]
      rw [hkeep] at hnd
      simp only [List.map_cons, List.nodup_cons] at hnd
      have hA : (rest.filter (fun x => !decide (x.key = o.key))).filter
          (fun x => decide (x.key = K)) = rest.filter (fun x => decide (x.key = K)) := by
        apply filter_filter_of_imp
        intro x _ hx
        simp only [decide_eq_true_eq] at hx
        simp only [Bool.not_eq_true', decide_eq_false_iff_not]
        intro hxo
        exact hoK (by rw [← hxo, hx])
      have hB : (rest.filter (fun x => !decide (x.key = o.key))).filter
          (fun x => !decide (x.key = K)) = rest.filter (fun x => !decide (x.key = K)) := by
        apply filter_filter_of_imp
        intro x hx hxK
        simp only [Bool.not_eq_true', decide_eq_false_iff_not] at hxK ⊢
        intro hxo
        apply hnd.1
        rw [← hxo]
        exact List.mem_map_of_mem EnqOp.key
          (List.mem_filter.mpr ⟨hx, by simp [hxK]⟩)
      have hk2 : 1 ≤ ((o :: rest).filter (fun x => decide (x.key = K))).length := hk
      have hkrest : (o :: rest).filter (fun x => decide (x.key = K))
          = rest.filter (fun x => decide (x.key = K)) := by
        simp [List.filter_cons, hoK]
      rw [hkrest] at hk2
      have hih := ih (by rw [hA]; exact hk2) (by rw [hB]; exact hnd.2)
      rw [consolidate, List.length_cons, hih, hB, hkeep]
      simp only [List.length_cons]
      omega

/-- Every key that was enqueued has a consolidated entry. -/
theorem consolidate_mem_key : ∀ (ops : List EnqOp) (K : Nat × Nat),
    K ∈ ops.map EnqOp.key → ∃ p, p ∈ consolidate ops ∧ p.key = K := by
  intro ops
  induction ops using consolidate.induct with
  | case1 => intro K hK; simp at hK
  | case2 o rest ih =>
    intro K hK
    by_cases hoK : o.key = K
    · rw [consolidate]
      exact ⟨_, List.mem_cons_self _ _, by simp [Packet.key, EnqOp.key, ← hoK]⟩
    · simp only [List.map_cons, List.mem_cons] at hK
      rcases hK with h | h
      · exact absurd h.symm hoK
      · rcases List.mem_map.mp h with ⟨x, hx, hxk⟩
        have hfx : x ∈ rest.filter (fun y => !decide (y.key = o.key)) := by
          refine List.mem_filter.mpr ⟨hx, ?_⟩
          simp only [Bool.not_eq_true', decide_eq_false_iff_not]
          intro hxo
          exact hoK (by rw [← hxo, hxk])
        have hxK : K ∈ (rest.filter (fun y => !decide (y.key = o.key))).map EnqOp.key := by
          rw [← hxk]
          exact List.mem_map_of_mem EnqOp.key hfx
        obtain ⟨p, hp, hpk⟩ := ih K hxK
        refine ⟨p, ?_, hpk⟩
        rw [consolidate]
        exact List.mem_cons_of_mem _ hp

/-- Claim C4: starting from an empty broker, enqueuing k packets sharing one
key (k at least 1) interleaved with packets of pairwise-distinct other keys
leaves exactly `1 + k'` queue entries, with a unique entry for the shared key
whose data sequence holds exactly the k buffers in enqueue order. -/
theorem claim_C4 (ops : List EnqOp) (K : Nat × Nat)
    (hk : 1 ≤ (ops.filter (fun o => decide (o.key = K))).length)
    (hnodup : ((ops.filter (fun o => !decide (o.key = K))).map EnqOp.key).Nodup) :
    (runEnqueues ops).length = 1 + (ops.filter (fun o => !decide (o.key = K))).length ∧
    (runEnqueues ops).countP (fun p => decide (p.key = K)) = 1 ∧
    ∃ p, p ∈ runEnqueues ops ∧ p.key = K ∧
      p.data = (ops.filter (fun o => decide (o.key = K))).map EnqOp.data := by
  rw [runEnqueues_eq_consolidate]
  have hexists : ∃ p, p ∈ consolidate ops ∧ p.key = K := by
    have hne : ops.filter (fun o => decide (o.key = K)) ≠ [] := by
      intro hnil
      rw [hnil] at hk
      simp at hk
    obtain ⟨o, ho⟩ := List.exists_mem_of_ne_nil _ hne
    have hof := List.mem_filter.mp ho
    have hoK : o.key = K := by simpa using hof.2
    have hkm : K ∈ ops.map EnqOp.key := by
      rw [← hoK]
      exact List.mem_map_of_mem EnqOp.key hof.1
    obtain ⟨p, hp, hpk⟩ := consolidate_mem_key ops K hkm
    exact ⟨p, hp, hpk⟩
  obtain ⟨p, hp, hpK⟩ := hexists
  refine ⟨consolidate_length_C4 K ops hk hnodup, ?_, ?_⟩
  · obtain ⟨i, hi, hpi⟩ := List.mem_iff_getElem.mp hp
    apply countP_eq_one_of_unique _ _ i hi
    · simp [hpi, hpK]
    · intro j hj hne
      simp only [decide_eq_false_iff_not]
      intro hKj
      apply hne
      have hnd := consolidate_keys_nodup ops
      have hmi : i < ((consolidate ops).map Packet.key).length := by
        simpa using hi
      have hmj : j < ((consolidate ops).map Packet.key).length := by
        simpa using hj
      have heq : ((consolidate ops).map Packet.key)[j]
          = ((consolidate ops).map Packet.key)[i] := by
        simp only [List.getElem_map]
        rw [hKj, hpi, hpK]
      exact (List.Nodup.getElem_inj_iff hnd).mp heq
  · obtain ⟨o0, hfind, hreq, hdata⟩ := consolidate_entry ops p hp
    simp only [hpK] at hdata
    exact ⟨p, hp, hpK, hdata⟩

/-- Claim C9: every packet in the broker queue carries the reqID of the FIRST
enqueue of its `(handlerID, action)` key — reqIDs of later consolidated
enqueues are discarded — and a flush hands the callback exactly the encoding
of the queue snapshot, so no discarded reqID can appear in a flushed
BatchRequest. -/
theorem claim_C9 {π : Type} (codec : Codec π) (ops : List EnqOp) (p : Packet)
    (hp : p ∈ runEnqueues ops) (encoded : Bytes)
    (henc : codec.encodeBatchReq { packets := runEnqueues ops } = .ok encoded) :
    (∃ o0, ops.find? (fun o => decide (o.key = p.key)) = some o0 ∧ p.reqID = o0.reqID) ∧
    flush codec { queue := runEnqueues ops, hasCallback := true }
      = ({ queue := [], hasCallback := true }, [encoded]) := by
  constructor
  · rw [runEnqueues_eq_consolidate] at hp
    obtain ⟨o0, hfind, hreq, _⟩ := consolidate_entry ops p hp
    exact ⟨o0, hfind, hreq⟩
  · have hne : runEnqueues ops ≠ [] := List.ne_nil_of_mem hp
    unfold flush
    simp [hne, henc]

/-- Claim C10: when encoding the snapshot BatchRequest fails during a flush
of a non-empty queue, the callback is not invoked and the queue is left
unchanged; a flush of an empty queue invokes the callback zero times. -/
theorem claim_C10 {π : Type} (codec : Codec π) (st : BrokerState) (e : GoError)
    (hne : st.queue ≠ [])
    (henc : codec.encodeBatchReq { packets := st.queue } = .error e)
    (st2 : BrokerState) (h2 : st2.queue = []) :
    flush codec st = (st, []) ∧ flush codec st2 = (st2, []) ∧
    FlushNow codec st = (st, []) := by
  have hf : flush codec st = (st, []) := by
    unfold flush
    simp [hne, henc]
  have hf2 : flush codec st2 = (st2, []) := by
    unfold flush
    simp [h2]
  exact ⟨hf, hf2, hf⟩

/-- Claim C4 witness: three enqueues of key (0, create) interleaved with one
of key (1, create). -/
theorem claim_C4_witness :
    (runEnqueues wOps).length
      = 1 + (wOps.filter (fun o => !decide (o.key = (0, 99)))).length ∧
    (runEnqueues wOps).countP (fun p => decide (p.key = (0, 99))) = 1 ∧
    ∃ p, p ∈ runEnqueues wOps ∧ p.key = (0, 99) ∧
      p.data = (wOps.filter (fun o => decide (o.key = (0, 99)))).map EnqOp.data :=
  claim_C4 wOps (0, 99) (by decide) (by decide)

/-- Claim C9 witness: the consolidated entry of `wOps` keeps reqID "a" (the
first enqueue), discarding "b" and "c", and the flush delivers the snapshot
encoding. -/
theorem claim_C9_witness :
    (∃ o0, wOps.find? (fun o => decide (o.key = wConsolidated.key)) = some o0 ∧
      wConsolidated.reqID = o0.reqID) ∧
    flush wCodec { queue := runEnqueues wOps, hasCallback := true }
      = ({ queue := [], hasCallback := true }, [[2]]) :=
  claim_C9 wCodec wOps wConsolidated (by decide) [2] rfl

/-- Claim C10 witness: a failing encoder on a one-packet queue, and an empty
queue. -/
theorem claim_C10_witness :
    flush wCodecBad { queue := [wGood], hasCallback := true }
      = ({ queue := [wGood], hasCallback := true }, []) ∧
    flush wCodecBad { queue := [], hasCallback := true }
      = ({ queue := [], hasCallback := true }, []) ∧
    FlushNow wCodecBad { queue := [wGood], hasCallback := true }
      = ({ queue := [wGood], hasCallback := true }, []) :=
  claim_C10 wCodecBad { queue := [wGood], hasCallback := true } "encode failed"
    (by decide) rfl { queue := [], hasCallback := true } rfl
